import Mathlib

/-!
Verification of the Mandrake trace engine (x86-64 single-stepping
instrumenter) against its natural-language specification.

Shallow embedding conventions:
* Rust `u64` values are `Nat` (claims never exercise wrap-around);
* Rust `String` / byte buffers are `List Nat` of their UTF-8 bytes
  (`RStr`), so `s.len()` is `List.length` and `format!` is `++`;
* the ptrace word-read primitive is an oracle `mem : Nat → Option Int`
  (the `i64` word readable at an address, or `none` when unreadable);
* the iced-x86 decoder plus NASM formatter is an oracle
  `dec : Nat → RStr → Option DecodeResult` (`none` when `can_decode`
  is false; otherwise the instruction's byte length and rendered text);
* Rust code that panics is modelled as returning `none`.
-/

/-- Bytes of a Rust string: everything Rust calls `String` or `&str` is
represented by the list of its UTF-8 bytes. -/
abbrev RStr := List Nat

/-- UTF-8 encoding of a single character (standard 1-4 byte encoding). -/
def utf8EncodeChar (c : Char) : List Nat :=
  let n := c.toNat
  if n < 0x80 then [n]
  else if n < 0x800 then
    [0xC0 ||| (n >>> 6), 0x80 ||| (n &&& 0x3F)]
  else if n < 0x10000 then
    [0xE0 ||| (n >>> 12), 0x80 ||| ((n >>> 6) &&& 0x3F), 0x80 ||| (n &&& 0x3F)]
  else
    [0xF0 ||| (n >>> 18), 0x80 ||| ((n >>> 12) &&& 0x3F),
     0x80 ||| ((n >>> 6) &&& 0x3F), 0x80 ||| (n &&& 0x3F)]

/-- The UTF-8 bytes of a Lean string literal (used to embed Rust string
literals and `format!` templates). -/
def rstr (s : String) : RStr :=
  (s.data.map utf8EncodeChar).foldr (· ++ ·) []

/-- Is a byte a UTF-8 continuation byte (`0x80..0xBF`)? -/
def isCont (b : Nat) : Bool := 0x80 ≤ b && b < 0xC0

/-- Strict UTF-8 validity of a byte sequence, as checked by Rust's
`std::str::from_utf8` (rejects overlong forms, surrogates and
code points above U+10FFFF). -/
def utf8Valid : RStr → Bool
  | [] => true
  | b :: rest =>
    if b < 0x80 then utf8Valid rest
    else if b < 0xC2 then false
    else if b < 0xE0 then
      match rest with
      | c1 :: r2 => isCont c1 && utf8Valid r2
      | [] => false
    else if b < 0xF0 then
      match rest with
      | c1 :: c2 :: r3 =>
        (if b = 0xE0 then 0xA0 ≤ c1 && c1 ≤ 0xBF
         else if b = 0xED then 0x80 ≤ c1 && c1 ≤ 0x9F
         else isCont c1) && isCont c2 && utf8Valid r3
      | _ => false
    else if b < 0xF5 then
      match rest with
      | c1 :: c2 :: c3 :: r4 =>
        (if b = 0xF0 then 0x90 ≤ c1 && c1 ≤ 0xBF
         else if b = 0xF4 then 0x80 ≤ c1 && c1 ≤ 0x8F
         else isCont c1) && isCont c2 && isCont c3 && utf8Valid r4
      | _ => false
    else false

/-- ASCII byte of a single lowercase hex digit. -/
def hexDigitByte (d : Nat) : Nat := if d < 10 then 48 + d else 87 + d

/-- Hex digits (most significant first) of `n`, with enough fuel for any
`u64`; empty for `0`. -/
def hexDigitsFuel : Nat → Nat → List Nat
  | 0, _ => []
  | fuel + 1, n => if n = 0 then [] else hexDigitsFuel fuel (n / 16) ++ [hexDigitByte (n % 16)]

/-- Rust's `format!("0x{:08x}", n)`: lowercase hex, zero-padded to at
least eight digits, with a `0x` head. -/
def formatHex08 (n : Nat) : RStr :=
  let ds := hexDigitsFuel 32 n
  rstr "0x" ++ List.replicate (8 - ds.length) 48 ++ ds

/-- Rust's `hex::encode`: two lowercase hex digits per byte. -/
def hexEncode (bytes : RStr) : RStr :=
  (bytes.map (fun b => [hexDigitByte (b / 16 % 16), hexDigitByte (b % 16)])).foldr (· ++ ·) []

/-- Decimal digits of `n` (most significant first), fueled. -/
def decDigitsFuel : Nat → Nat → List Nat
  | 0, _ => []
  | fuel + 1, n => if n = 0 then [] else decDigitsFuel fuel (n / 10) ++ [48 + n % 10]

/-- Rust's `format!("{}", n)` for an unsigned integer, as ASCII bytes. -/
def decimalBytes (n : Nat) : RStr := if n = 0 then [48] else decDigitsFuel 32 n

/-- Rust's `format!("{}", n)` for a signed integer, as ASCII bytes. -/
def intDecimalBytes (n : Int) : RStr :=
  if n < 0 then 45 :: decimalBytes n.natAbs else decimalBytes n.natAbs

/-! ## Visibility configuration (`src/visibility_configuration.rs`) -/

/-- `DEFAULT_MASK` from `visibility_configuration.rs`. -/
def DEFAULT_MASK : Nat := 0xFFFFFFFFFFFF0000

/-- The four optional fields of `VisibilityConfiguration`. -/
structure VisibilityConfiguration where
  hidden_address : Option Nat
  hidden_mask : Option Nat
  visible_address : Option Nat
  visible_mask : Option Nat
deriving DecidableEq

/-- `VisibilityConfiguration::is_visible`: suppress addresses matching
the hidden pair, then suppress addresses not matching the visible pair. -/
def VisibilityConfiguration.is_visible (c : VisibilityConfiguration) (address : Nat) : Bool :=
  let hiddenReject :=
    match c.hidden_address with
    | some hidden_address => (address &&& c.hidden_mask.getD DEFAULT_MASK) == hidden_address
    | none => false
  if hiddenReject then false
  else
    let visibleReject :=
      match c.visible_address with
      | some visible_address => (address &&& c.visible_mask.getD DEFAULT_MASK) != visible_address
      | none => false
    if visibleReject then false else true

/-- `VisibilityConfiguration::harness_visibility`: only the
`0x13370000`-page (mask `0xFFFF0000`) is shown. -/
def VisibilityConfiguration.harness_visibility : VisibilityConfiguration :=
  { hidden_address := none
    hidden_mask := none
    visible_address := some 0x13370000
    visible_mask := some 0xFFFF0000 }

/-- Modelled from the spec: `VisibilityConfiguration::full_visibility` is
called by `analyze_code` in `mandrake.rs` but is not defined anywhere
under `src/`; the spec says "Preset `full_visibility()`: all four fields
absent", i.e. every address is accepted. -/
def VisibilityConfiguration.full_visibility : VisibilityConfiguration :=
  { hidden_address := none
    hidden_mask := none
    visible_address := none
    visible_mask := none }

/-- The visibility preset chosen by `analyze_code` (`mandrake.rs`,
the `match show_everything` at the end of the function), exactly as in
the source: `false` selects `full_visibility`, `true` selects
`harness_visibility`. -/
def analyzeCodeDispatch (show_everything : Bool) : VisibilityConfiguration :=
  match show_everything with
  | false => VisibilityConfiguration.full_visibility
  | true => VisibilityConfiguration.harness_visibility

/-! ## Memory reader and analyzed values (`src/analyzed_value.rs`) -/

/-- `INITIAL_SNIPPIT_LENGTH` from `analyzed_value.rs`. -/
def INITIAL_SNIPPIT_LENGTH : Nat := 128

/-- `MAX_SYSCALL_MEMORY_SNIPPIT` from `analyzed_value.rs`. -/
def MAX_SYSCALL_MEMORY_SNIPPIT : Nat := 8

/-- The eight little-endian bytes written by
`data.write_i64::<LittleEndian>(chunk)`: the two's-complement `u64`
image of the word, least significant byte first. -/
def i64ToLeBytes (w : Int) : RStr :=
  let u := (w % (2 ^ 64 : Int)).toNat
  [u &&& 255, (u >>> 8) &&& 255, (u >>> 16) &&& 255, (u >>> 24) &&& 255,
   (u >>> 32) &&& 255, (u >>> 40) &&& 255, (u >>> 48) &&& 255, (u >>> 56) &&& 255]

/-- The word-read loop of `AnalyzedValue::get_memory`: read `count`
words starting at `addr` (8 bytes apart), abort with `none` on the
first unreadable word. The second component counts the word reads that
were actually issued. -/
def getMemoryAux (mem : Nat → Option Int) (addr : Nat) : Nat → Option RStr × Nat
  | 0 => (some [], 0)
  | count + 1 =>
    match mem addr with
    | none => (none, 1)
    | some w =>
      let rest := getMemoryAux mem (addr + 8) count
      (rest.1.map (fun tail => i64ToLeBytes w ++ tail), rest.2 + 1)

/-- `AnalyzedValue::get_memory(pid, addr, snippit_length)`: word reads
for `i in 0..((snippit_length + 7) / 8)`, `none` as soon as one fails. -/
def get_memory (mem : Nat → Option Int) (addr : Nat) (snippit_length : Nat) : Option RStr :=
  (getMemoryAux mem addr ((snippit_length + 7) / 8)).1

/-- Number of word reads `get_memory` issues against the tracee. -/
def get_memory_reads (mem : Nat → Option Int) (addr : Nat) (snippit_length : Nat) : Nat :=
  (getMemoryAux mem addr ((snippit_length + 7) / 8)).2

/-- `AnalyzedValue::get_memory_as_u64`: a single word read, reinterpreted
as `u64` (`chunk as u64`). -/
def get_memory_as_u64 (mem : Nat → Option Int) (addr : Nat) : Option Nat :=
  match mem addr with
  | some d => some (d % (2 ^ 64 : Int)).toNat
  | none => none

/-- Result of one decoder step: `len` is `decoded.len()` (the byte
length of the instruction), `text` the NASM-formatted rendering. -/
structure DecodeResult where
  len : Nat
  text : RStr
deriving DecidableEq

/-- The iced-x86 decoder oracle: given the seeded instruction pointer
and the probe buffer, `none` models `can_decode() == false`. -/
abbrev DecOracle := Nat → RStr → Option DecodeResult

/-- The `AnalyzedValue` record of `analyzed_value.rs`. -/
structure AnalyzedValue where
  value : Nat
  memory : Option RStr
  as_instruction : Option RStr
  as_string : Option RStr
  extra : Option (List RStr)
deriving DecidableEq

/-- The string pass of `AnalyzedValue::new` (steps over the buffer as
left by the disassembly pass): bytes strictly before the first `0x00`,
kept only when valid UTF-8 of length strictly greater than
`minimum_viable_string`. -/
def stringPass (data1 : RStr) (minimum_viable_string : Nat) : Option RStr :=
  let string_data := data1.takeWhile (fun d => d != 0)
  if utf8Valid string_data then
    if string_data.length > minimum_viable_string then some string_data else none
  else none

/-- `AnalyzedValue::new(pid, value, is_instruction_pointer,
snippit_length, minimum_viable_string)`:
probe `max(INITIAL_SNIPPIT_LENGTH, snippit_length)` bytes; on failure a
degenerate record; otherwise the disassembly pass (truncating the buffer
to the instruction length when `is_instruction_pointer`), the string
pass over the NUL-free prefix, and the final truncation to
`snippit_length`. -/
def AnalyzedValue.new (mem : Nat → Option Int) (dec : DecOracle) (value : Nat)
    (is_instruction_pointer : Bool) (snippit_length minimum_viable_string : Nat) :
    AnalyzedValue :=
  let bytes_to_get := max INITIAL_SNIPPIT_LENGTH snippit_length
  match get_memory mem value bytes_to_get with
  | none =>
    { value := value, memory := none, as_instruction := none, as_string := none, extra := none }
  | some data0 =>
    let step :=
      match dec value data0 with
      | some decoded =>
        (if is_instruction_pointer then data0.take decoded.len else data0,
         if decoded.text == rstr "(bad)" then none else some decoded.text)
      | none => (data0, none)
    let data1 := step.1
    { value := value
      memory := some (data1.take snippit_length)
      as_instruction := step.2
      as_string := stringPass data1 minimum_viable_string
      extra := none }

/-! ## Syscall table entries and the decoder (`src/syscalls.rs`,
`src/analyzed_value.rs`) -/

/-- One parsed syscall parameter descriptor (`SyscallEntry` in
`syscalls.rs`). -/
structure SyscallEntry where
  field_type : RStr
  is_string : Bool
  is_pointer : Bool
  field_name : RStr
  is_array : Bool
deriving DecidableEq

/-- One row of the compile-time syscall table (`Syscall` in
`syscalls.rs`). -/
structure Syscall where
  name : RStr
  rdi : Option SyscallEntry
  rsi : Option SyscallEntry
  rdx : Option SyscallEntry
  r10 : Option SyscallEntry
  r8 : Option SyscallEntry
  r9 : Option SyscallEntry
deriving DecidableEq

/-- The `for i in 0..` walk of the `is_array` branch of
`AnalyzedValue::syscall_param`: follow the pointer array at `base`,
stopping at the first unreadable word, NUL pointer, or entry without a
string. The source loop is unbounded, so the model carries fuel and
answers `none` when it runs out (never reached by the terminating runs
the claims are about). -/
def arrayStrings (mem : Nat → Option Int) (dec : DecOracle) :
    Nat → Nat → Nat → Option (List RStr)
  | 0, _, _ => none
  | fuel + 1, base, i =>
    match get_memory_as_u64 mem (base + i * 8) with
    | none => some []
    | some addr =>
      if addr = 0 then some []
      else
        match (AnalyzedValue.new mem dec addr false 0 0).as_string with
        | none => some []
        | some str =>
          (arrayStrings mem dec fuel base (i + 1)).map
            (fun out => (rstr "\"" ++ str ++ rstr "\"") :: out)

/-- `", "`-joining of `Vec<String>::join`. -/
def joinComma : List RStr → RStr
  | [] => []
  | [s] => s
  | s :: rest => s ++ rstr ", " ++ joinComma rest

/-- `AnalyzedValue::syscall_param(pid, s, r)`. `none` models a panic:
the `is_pointer` branch slices `&mem[..MAX_SYSCALL_MEMORY_SNIPPIT]`,
which is out of range when the stored memory holds fewer than 8 bytes.
(`none` is also the fuel-exhaustion answer of the array walk.) -/
def syscall_param (mem : Nat → Option Int) (dec : DecOracle) (fuel : Nat)
    (s : SyscallEntry) (r : AnalyzedValue) : Option RStr :=
  if s.is_array then
    if r.value != 0 then
      (arrayStrings mem dec fuel r.value 0).map
        (fun out => rstr "[" ++ joinComma out ++ rstr "]")
    else some (rstr "(Empty array)")
  else if s.is_string then
    match r.as_string with
    | some str => some (rstr "`" ++ str ++ rstr "`")
    | none => some (rstr "Invalid string: " ++ formatHex08 r.value)
  else if s.is_pointer then
    if r.value == 0 then some (rstr "(nil)")
    else
      match r.memory with
      | some memb =>
        if memb.length < MAX_SYSCALL_MEMORY_SNIPPIT then none
        else some (rstr "`" ++ hexEncode (memb.take MAX_SYSCALL_MEMORY_SNIPPIT) ++ rstr "...`")
      | none => some (rstr "Invalid memory pointer: " ++ formatHex08 r.value)
  else some (rstr "`" ++ formatHex08 r.value ++ rstr "`")

/-- One formatted argument line of `syscall_info`:
`"<field_name> (<reg>) = <formatted>"`. -/
def syscallLine (mem : Nat → Option Int) (dec : DecOracle) (fuel : Nat)
    (regName : String) (param : SyscallEntry) (r : AnalyzedValue) : Option RStr :=
  (syscall_param mem dec fuel param r).map
    (fun f => param.field_name ++ rstr " (" ++ rstr regName ++ rstr ") = " ++ f)

/-- `AnalyzedValue::syscall_info(pid, rax, rdi, rsi, rdx, r10, r8, r9)`
(as defined in `analyzed_value.rs`): look `rax.value` up in the table;
unknown numbers give the single `Unknown syscall` line, known ones give
the name line followed by one line per declared register slot in the
fixed order rdi, rsi, rdx, r10, r8, r9. The table is the compile-time
CSV, abstracted as a partial map. `none` only propagates a
`syscall_param` panic or fuel exhaustion. -/
def syscall_info (table : Nat → Option Syscall) (mem : Nat → Option Int) (dec : DecOracle)
    (fuel : Nat) (rax rdi rsi rdx r10 r8 r9 : AnalyzedValue) : Option (List RStr) :=
  match table rax.value with
  | some s =>
    let slots : List (String × Option SyscallEntry × AnalyzedValue) :=
      [("rdi", s.rdi, rdi), ("rsi", s.rsi, rsi), ("rdx", s.rdx, rdx),
       ("r10", s.r10, r10), ("r8", s.r8, r8), ("r9", s.r9, r9)]
    slots.foldr
      (fun slot acc =>
        match slot.2.1 with
        | some param =>
          match syscallLine mem dec fuel slot.1 param slot.2.2, acc with
          | some line, some rest => some (line :: rest)
          | _, _ => none
        | none => acc)
      (some [])
      |>.map (fun lines => (rstr "Syscall: `" ++ s.name ++ rstr "`") :: lines)
  | none => some [rstr "Unknown syscall: `" ++ decimalBytes rax.value ++ rstr "`"]

/-! ## Register snapshots (`src/mandrake.rs`, `get_registers_from_pid`) -/

/-- The raw register values `nix::sys::ptrace::getregs` returns (only
the nine fields the engine analyzes). -/
structure RegsFile where
  rip : Nat
  rax : Nat
  rbx : Nat
  rcx : Nat
  rdx : Nat
  rsi : Nat
  rdi : Nat
  rbp : Nat
  rsp : Nat

/-- The snapshot map built by `get_registers_from_pid` before the
special-instruction handling: the nine named slots, `rip` analyzed with
`is_instruction_pointer = true`, all others with `false` (the source's
`vec![...].into_iter().collect()` represented as an association list). -/
def getRegistersBase (mem : Nat → Option Int) (dec : DecOracle)
    (snippit_length minimum_viable_string : Nat) (rf : RegsFile) :
    List (String × AnalyzedValue) :=
  [("rip", AnalyzedValue.new mem dec rf.rip true snippit_length minimum_viable_string),
   ("rax", AnalyzedValue.new mem dec rf.rax false snippit_length minimum_viable_string),
   ("rbx", AnalyzedValue.new mem dec rf.rbx false snippit_length minimum_viable_string),
   ("rcx", AnalyzedValue.new mem dec rf.rcx false snippit_length minimum_viable_string),
   ("rdx", AnalyzedValue.new mem dec rf.rdx false snippit_length minimum_viable_string),
   ("rsi", AnalyzedValue.new mem dec rf.rsi false snippit_length minimum_viable_string),
   ("rdi", AnalyzedValue.new mem dec rf.rdi false snippit_length minimum_viable_string),
   ("rbp", AnalyzedValue.new mem dec rf.rbp false snippit_length minimum_viable_string),
   ("rsp", AnalyzedValue.new mem dec rf.rsp false snippit_length minimum_viable_string)]

/-- The special-instruction step at the end of `get_registers_from_pid`:
when the `rip` slot decoded to the literal `"syscall"`, its `extra`
field is overwritten with the syscall decoder's lines (`info` here;
the lines themselves are irrelevant to the snapshot invariants, and the
source's call to `syscall_info` does not match that function's
signature — see the C2 analysis). -/
def attachExtra (out : List (String × AnalyzedValue)) (info : List RStr) :
    List (String × AnalyzedValue) :=
  match List.lookup "rip" out with
  | some rip =>
    if rip.as_instruction == some (rstr "syscall") then
      out.map (fun kv => if kv.1 = "rip" then (kv.1, { kv.2 with extra := some info }) else kv)
    else out
  | none => out

/-- `get_registers_from_pid`, with the attached `extra` abstracted by
`info`. -/
def get_registers_from_pid (mem : Nat → Option Int) (dec : DecOracle)
    (snippit_length minimum_viable_string : Nat) (rf : RegsFile) (info : List RStr) :
    List (String × AnalyzedValue) :=
  attachExtra (getRegistersBase mem dec snippit_length minimum_viable_string rf) info

/-! ## The trace engine loop (`src/mandrake.rs`, `go`) -/

/-- The signals the loop's `match sig` distinguishes. -/
inductive TraceSignal where
  | SIGTRAP
  | SIGALRM
  | SIGABRT
  | SIGBUS
  | SIGFPE
  | SIGILL
  | SIGKILL
  | SIGSEGV
  | SIGTERM
  | otherSig (name : RStr)
deriving DecidableEq

/-- One return of the top-of-loop `wait()`: either the tracee exited
with a code, or it stopped under a signal, in which case the event
carries the snapshot `get_registers_from_pid` produces at that stop.
(The extra `wait()` inside the `int3` branch is a separate rendezvous
whose result the source discards, so it is not part of this stream.) -/
inductive WaitEvent where
  | exited (code : Int)
  | stopped (sig : TraceSignal) (regs : List (String × AnalyzedValue))
deriving DecidableEq

/-- The `Mandrake` configuration record (`mandrake.rs`). -/
structure Mandrake where
  snippit_length : Nat
  minimum_viable_string : Nat
  max_logged_instructions : Option Nat
  capture_stdout : Bool
  capture_stderr : Bool

/-- The in-memory output record. The fields `starting_address` and
`instructions_executed` are assigned by `go` in `mandrake.rs`;
the struct declaration under `src/mandrake_output.rs` (an older
revision) lacks them, so they are modelled from the spec:
`{ success, pid, history, starting_address, instructions_executed,
stdout, stderr, exit_reason, exit_code }`. -/
structure MandrakeOutput where
  success : Bool
  pid : Nat
  history : List (List (String × AnalyzedValue))
  starting_address : Option Nat
  instructions_executed : Nat
  stdout : Option RStr
  stderr : Option RStr
  exit_reason : Option RStr
  exit_code : Option Int
deriving DecidableEq

/-- `MandrakeOutput::new(pid)`. -/
def MandrakeOutput.new (pid : Nat) : MandrakeOutput :=
  { success := true
    pid := pid
    history := []
    starting_address := none
    instructions_executed := 0
    stdout := none
    stderr := none
    exit_reason := none
    exit_code := none }

/-- The cap message
`format!("Execution stopped at instruction cap (max instructions: {})", max)`. -/
def capMessage (maxInstructions : Nat) : RStr :=
  rstr "Execution stopped at instruction cap (max instructions: "
    ++ decimalBytes maxInstructions ++ rstr ")"

/-- `Display` of an `AnalyzedValue` (`"0x{:08x}"` of its value). -/
def AnalyzedValue.display (r : AnalyzedValue) : RStr := formatHex08 r.value

/-- What one loop iteration does with its `wait()` result. -/
inductive StepOut where
  | halt (out : MandrakeOutput)
  | failure (msg : RStr)
  | next (out : MandrakeOutput)
deriving DecidableEq

/-- One iteration of the `loop` in `Mandrake::go`, dispatching on the
`wait()` result: clean exits and non-trap signals record an
`exit_reason` and break; `SIGTRAP` skips `int3` snapshots, counts the
instruction, breaks at the cap, then filters by visibility, sets
`starting_address` on the first accepted snapshot, and appends to
`history`. -/
def goStep (m : Mandrake) (visibility : VisibilityConfiguration)
    (result : MandrakeOutput) (ev : WaitEvent) : StepOut :=
  match ev with
  | .exited code =>
    .halt { result with
      exit_reason := some (rstr "Process exited cleanly with exit code " ++ intDecimalBytes code)
      exit_code := some code }
  | .stopped sig regs =>
    match List.lookup "rip" regs with
    | none => .failure (rstr "RIP is missing from the register list!")
    | some rip =>
      match sig with
      | .SIGTRAP =>
        if rip.as_instruction == some (rstr "int3") then
          .next result
        else
          let result := { result with instructions_executed := result.instructions_executed + 1 }
          let afterCap : StepOut :=
            if visibility.is_visible rip.value then
              if result.starting_address.isNone then
                .next { result with
                        starting_address := some rip.value
                        history := result.history ++ [regs] }
              else
                .next { result with history := result.history ++ [regs] }
            else .next result
          match m.max_logged_instructions with
          | some maxInstructions =>
            if result.instructions_executed ≥ maxInstructions then
              .halt { result with exit_reason := some (capMessage maxInstructions) }
            else afterCap
          | none => afterCap
      | .SIGALRM =>
        .halt { result with
          exit_reason := some (rstr "Execution timed out (SIGALRM) @ " ++ rip.display) }
      | .SIGABRT =>
        .halt { result with
          exit_reason := some (rstr "Execution crashed with an abort (SIGABRT) @ " ++ rip.display) }
      | .SIGBUS =>
        .halt { result with
          exit_reason := some (rstr "Execution crashed with a bus error (bad memory access) (SIGBUS) @ " ++ rip.display) }
      | .SIGFPE =>
        .halt { result with
          exit_reason := some (rstr "Execution crashed with a floating point error (SIGFPE) @ " ++ rip.display) }
      | .SIGILL =>
        .halt { result with
          exit_reason := some (rstr "Execution crashed with an illegal instruction (SIGILL) @ " ++ rip.display) }
      | .SIGKILL =>
        .halt { result with
          exit_reason := some (rstr "Execution was killed (SIGKILL) @ " ++ rip.display) }
      | .SIGSEGV =>
        .halt { result with
          exit_reason := some (rstr "Execution crashed with a segmentation fault (SIGSEGV) @ " ++ rip.display) }
      | .SIGTERM =>
        .halt { result with
          exit_reason := some (rstr "Execution was terminated (SIGTERM) @ " ++ rip.display) }
      | .otherSig name =>
        .halt { result with
          exit_reason := some (rstr "Execution stopped by unexpected signal: " ++ name) }

/-- The `loop` of `Mandrake::go` over a stream of `wait()` results.
`.ok (out, true)` means the loop broke (or bailed out happily) with
`out`; `.ok (out, false)` means the modelled event stream ran out while
the real loop would still be blocking in `wait()`; `.error` models the
`bail!` on a snapshot without `rip`. -/
def goLoop (m : Mandrake) (visibility : VisibilityConfiguration) :
    MandrakeOutput → List WaitEvent → Except RStr (MandrakeOutput × Bool)
  | result, [] => .ok (result, false)
  | result, ev :: rest =>
    match goStep m visibility result ev with
    | .halt out => .ok (out, true)
    | .failure msg => .error msg
    | .next r => goLoop m visibility r rest

/-! ## Helper lemmas -/

/-- The hidden-pair early return of `is_visible`, as a predicate. -/
def hiddenRejectB (c : VisibilityConfiguration) (address : Nat) : Bool :=
  match c.hidden_address with
  | some hidden_address => (address &&& c.hidden_mask.getD DEFAULT_MASK) == hidden_address
  | none => false

/-- The visible-pair early return of `is_visible`, as a predicate. -/
def visibleRejectB (c : VisibilityConfiguration) (address : Nat) : Bool :=
  match c.visible_address with
  | some visible_address => (address &&& c.visible_mask.getD DEFAULT_MASK) != visible_address
  | none => false

lemma is_visible_eq (c : VisibilityConfiguration) (address : Nat) :
    c.is_visible address = (!hiddenRejectB c address && !visibleRejectB c address) := by
  unfold VisibilityConfiguration.is_visible hiddenRejectB visibleRejectB
  cases hA : c.hidden_address with
  | none =>
    cases vA : c.visible_address with
    | none => simp
    | some v =>
      cases hv : ((address &&& c.visible_mask.getD DEFAULT_MASK) != v) <;> simp [hv]
  | some hAddr =>
    cases hh : ((address &&& c.hidden_mask.getD DEFAULT_MASK) == hAddr) with
    | true => simp [hh]
    | false =>
      cases vA : c.visible_address with
      | none => simp [hh]
      | some v =>
        cases hv : ((address &&& c.visible_mask.getD DEFAULT_MASK) != v) <;> simp [hh, hv]

/-! ## C1 -/

/-- C1: the claim says `analyze_code` traces under `harness_visibility()`
when `show_everything` is false and under `full_visibility()` when it is
true. The source's `match show_everything` has the arms the other way
around: `false` selects `full_visibility` and `true` selects
`harness_visibility`, and the two presets differ. This contradicts the
`--show-everything` flag's own documentation ("If set, doesn't hide
instructions executed outside of the harness"), so the code, not the
claim, is wrong. -/
theorem analyze_code_dispatch_swapped :
    analyzeCodeDispatch false = VisibilityConfiguration.full_visibility ∧
    analyzeCodeDispatch true = VisibilityConfiguration.harness_visibility ∧
    VisibilityConfiguration.full_visibility ≠ VisibilityConfiguration.harness_visibility :=
  ⟨rfl, rfl, by decide⟩

/-! ## C10 -/

/-- C10: enabling the hidden `(address, mask)` pair while leaving the
visible fields unchanged never makes `is_visible` return true where it
returned false, and enabling the visible pair while leaving the hidden
fields unchanged never does either: each enabled pair only shrinks the
accepted set. -/
theorem visibility_pair_enabling_monotonic :
    ∀ (va vm hm ha hm2 vm2 : Option Nat) (a b address : Nat),
      (VisibilityConfiguration.is_visible ⟨some a, hm, va, vm⟩ address = true →
        VisibilityConfiguration.is_visible ⟨none, none, va, vm⟩ address = true) ∧
      (VisibilityConfiguration.is_visible ⟨ha, hm2, some b, vm2⟩ address = true →
        VisibilityConfiguration.is_visible ⟨ha, hm2, none, none⟩ address = true) := by
  intro va vm hm ha hm2 vm2 a b address
  constructor
  · intro h
    rw [is_visible_eq] at h ⊢
    simp only [Bool.and_eq_true, Bool.not_eq_true'] at h ⊢
    refine ⟨by simp [hiddenRejectB], ?_⟩
    exact h.2
  · intro h
    rw [is_visible_eq] at h ⊢
    simp only [Bool.and_eq_true, Bool.not_eq_true'] at h ⊢
    refine ⟨?_, by simp [visibleRejectB]⟩
    exact h.1

/-- Witness for C10 at concrete inputs: with only the hidden pair
`(0x10000, default mask)` enabled, address `0x20000` is still accepted,
and so it is under the empty configuration; likewise for the visible
pair `(0x20000 & mask)`. -/
theorem visibility_pair_enabling_monotonic_witness :
    VisibilityConfiguration.is_visible ⟨none, none, none, some DEFAULT_MASK⟩ 0x20000 = true ∧
    VisibilityConfiguration.is_visible ⟨some 0x30000, some DEFAULT_MASK, none, none⟩ 0x20000 = true :=
  ⟨(visibility_pair_enabling_monotonic none (some DEFAULT_MASK) (some DEFAULT_MASK)
      (some 0x30000) (some DEFAULT_MASK) (some DEFAULT_MASK) 0x10000 0x20000 0x20000).2
      (by decide),
   (visibility_pair_enabling_monotonic none (some DEFAULT_MASK) (some DEFAULT_MASK)
      (some 0x30000) (some DEFAULT_MASK) (some DEFAULT_MASK) 0x10000 0x20000 0x20000).1
      (by decide)⟩

/-! ## C6 -/

lemma i64ToLeBytes_length (w : Int) : (i64ToLeBytes w).length = 8 := rfl

lemma getMemoryAux_none_iff (mem : Nat → Option Int) :
    ∀ (count addr : Nat),
      (getMemoryAux mem addr count).1 = none ↔ ∃ i, i < count ∧ mem (addr + 8 * i) = none := by
  intro count
  induction count with
  | zero => intro addr; simp [getMemoryAux]
  | succ k ih =>
    intro addr
    cases hm : mem addr with
    | none =>
      refine iff_of_true ?_ ⟨0, by omega, by simpa using hm⟩
      simp [getMemoryAux, hm]
    | some w =>
      simp only [getMemoryAux, hm, Option.map_eq_none']
      rw [ih (addr + 8)]
      constructor
      · rintro ⟨i, hi, hnone⟩
        exact ⟨i + 1, by omega, by rw [show addr + 8 * (i + 1) = addr + 8 + 8 * i by omega]; exact hnone⟩
      · rintro ⟨i, hi, hnone⟩
        match i with
        | 0 => rw [show addr + 8 * 0 = addr by omega] at hnone; rw [hm] at hnone; cases hnone
        | j + 1 =>
          exact ⟨j, by omega, by rw [show addr + 8 + 8 * j = addr + 8 * (j + 1) by omega]; exact hnone⟩

lemma getMemoryAux_some (mem : Nat → Option Int) :
    ∀ (count addr : Nat) (buf : RStr),
      (getMemoryAux mem addr count).1 = some buf →
      buf.length = 8 * count ∧ (getMemoryAux mem addr count).2 = count := by
  intro count
  induction count with
  | zero =>
    intro addr buf h
    simp only [getMemoryAux, Option.some.injEq] at h
    simp [getMemoryAux, ← h]
  | succ k ih =>
    intro addr buf h
    simp only [getMemoryAux] at h
    cases hm : mem addr with
    | none => rw [hm] at h; simp at h
    | some w =>
      rw [hm] at h
      simp only [Option.map_eq_some'] at h
      obtain ⟨tail, htail, hbuf⟩ := h
      obtain ⟨hlen, hcnt⟩ := ih (addr + 8) tail htail
      constructor
      · rw [← hbuf]
        simp [i64ToLeBytes_length, hlen]
        omega
      · simp [getMemoryAux, hm, hcnt]

/-- C6: for every memory state, address and requested length `n`, the
reader works word by word over `ceil(n/8)` words: the result is
`Unreadable` (`none`) exactly when one of those `ceil(n/8)` word reads
fails, and on success the buffer has exactly `8 * ceil(n/8)`
little-endian bytes (a multiple of 8, at least `n`) with exactly
`ceil(n/8)` word reads issued. -/
theorem get_memory_word_reads :
    ∀ (mem : Nat → Option Int) (addr n : Nat),
      (get_memory mem addr n = none ↔ ∃ i, i < (n + 7) / 8 ∧ mem (addr + 8 * i) = none) ∧
      (∀ buf, get_memory mem addr n = some buf →
        buf.length = 8 * ((n + 7) / 8) ∧
        n ≤ buf.length ∧
        get_memory_reads mem addr n = (n + 7) / 8) := by
  intro mem addr n
  constructor
  · exact getMemoryAux_none_iff mem ((n + 7) / 8) addr
  · intro buf h
    obtain ⟨hlen, hcnt⟩ := getMemoryAux_some mem ((n + 7) / 8) addr buf h
    exact ⟨hlen, by omega, hcnt⟩

/-- Witness for C6: a memory readable only below `0x18` serves a 20-byte
request with 3 word reads and a 24-byte buffer, and fails a 32-byte
request (word 3 unreadable). -/
theorem get_memory_word_reads_witness :
    ((get_memory (fun a => if a < 0x18 then some 5 else none) 0 20).getD []).length = 24 ∧
    20 ≤ ((get_memory (fun a => if a < 0x18 then some 5 else none) 0 20).getD []).length ∧
    get_memory_reads (fun a => if a < 0x18 then some 5 else none) 0 20 = 3 ∧
    get_memory (fun a => if a < 0x18 then some 5 else none) 0 32 = none :=
  ⟨((get_memory_word_reads (fun a => if a < 0x18 then some 5 else none) 0 20).2
      ((get_memory (fun a => if a < 0x18 then some 5 else none) 0 20).getD []) (by rfl)).1,
   ((get_memory_word_reads (fun a => if a < 0x18 then some 5 else none) 0 20).2
      ((get_memory (fun a => if a < 0x18 then some 5 else none) 0 20).getD []) (by rfl)).2.1,
   ((get_memory_word_reads (fun a => if a < 0x18 then some 5 else none) 0 20).2
      ((get_memory (fun a => if a < 0x18 then some 5 else none) 0 20).getD []) (by rfl)).2.2,
   (get_memory_word_reads (fun a => if a < 0x18 then some 5 else none) 0 32).1.2
      ⟨3, by omega, by norm_num⟩⟩

/-! ## C4 -/

/-- The all-zero readable memory and the fixed 2-byte decode used to
refute C4. -/
def cexMemC4 : Nat → Option Int := fun _ => some 0

/-- A decoder oracle that always reports a 2-byte instruction (e.g. the
`EB FE` short jump). -/
def cexDecC4 : DecOracle := fun _ _ => some { len := 2, text := rstr "jmp short 0x13370000" }

/-- Counterexample for C4: with `is_ip` set, a successful 128-byte
probe and a decoded 2-byte instruction, `snippit_length = 1` leaves a
1-byte `memory`, not the 2 instruction bytes the claim requires for
every `snippit_length`: the final `truncate(snippit_length)` is applied
unconditionally, also after the instruction truncation. -/
theorem ip_memory_truncation_counterexample :
    (cexDecC4 0x13370000 (List.replicate 128 0)).map DecodeResult.len = some 2 ∧
    get_memory cexMemC4 0x13370000 (max INITIAL_SNIPPIT_LENGTH 1) = some (List.replicate 128 0) ∧
    (AnalyzedValue.new cexMemC4 cexDecC4 0x13370000 true 1 6).memory.map List.length = some 1 ∧
    (1 : Nat) ≠ 2 := by
  refine ⟨by decide, by decide, by decide, by decide⟩

/-- C4 (amended): when the probe succeeds and the decoder yields an
instruction of `d.len` bytes (any real x86 instruction fits the 128-byte
probe floor), the stored `memory` of an `is_ip` analysis has length
`min d.len snippit_length` — the instruction length only when the
caller's `snippit_length` does not truncate further. -/
theorem ip_memory_length_min :
    ∀ (mem : Nat → Option Int) (dec : DecOracle) (value snip mvs : Nat)
      (data0 : RStr) (d : DecodeResult),
      get_memory mem value (max INITIAL_SNIPPIT_LENGTH snip) = some data0 →
      dec value data0 = some d →
      d.len ≤ INITIAL_SNIPPIT_LENGTH →
      ∃ buf, (AnalyzedValue.new mem dec value true snip mvs).memory = some buf ∧
        buf.length = min d.len snip := by
  intro mem dec value snip mvs data0 d hprobe hdec hlen
  have hd0 : data0.length = 8 * ((max INITIAL_SNIPPIT_LENGTH snip + 7) / 8) :=
    (getMemoryAux_some mem _ value data0 hprobe).1
  have h128 : INITIAL_SNIPPIT_LENGTH ≤ data0.length := by
    rw [hd0]
    have hq : (INITIAL_SNIPPIT_LENGTH + 7) / 8 ≤ (max INITIAL_SNIPPIT_LENGTH snip + 7) / 8 := by
      refine Nat.div_le_div_right ?_
      have := Nat.le_max_left INITIAL_SNIPPIT_LENGTH snip
      omega
    simp only [INITIAL_SNIPPIT_LENGTH] at hq ⊢
    omega
  simp only [AnalyzedValue.new, hprobe, hdec]
  refine ⟨(data0.take d.len).take snip, rfl, ?_⟩
  simp only [List.length_take]
  omega

/-- Witness for C4 (amended), at the counterexample's configuration but
with `snippit_length = 64`: the stored memory is exactly the 2
instruction bytes. -/
theorem ip_memory_length_min_witness :
    ∃ buf, (AnalyzedValue.new cexMemC4 cexDecC4 0x13370000 true 64 6).memory = some buf ∧
      buf.length = min 2 64 :=
  ip_memory_length_min cexMemC4 cexDecC4 0x13370000 64 6 (List.replicate 128 0)
    { len := 2, text := rstr "jmp short 0x13370000" } (by decide) (by decide) (by decide)

/-! ## C9 -/

lemma stringPass_some (data1 : RStr) (mvs : Nat) (s : RStr)
    (h : stringPass data1 mvs = some s) :
    mvs < s.length ∧ ∀ b ∈ s, b ≠ 0 := by
  simp only [stringPass] at h
  split at h
  · split at h
    · rename_i hvalid hlong
      cases h
      refine ⟨by omega, ?_⟩
      intro b hb
      have hp := List.mem_takeWhile_imp hb
      simpa using hp
    · cases h
  · cases h

/-- C9: whenever the analyzer reports `as_string = Some s`, `s` is the
UTF-8-validated prefix of the buffer strictly before its first NUL, its
(byte) length strictly exceeds `minimum_viable_string`, and it contains
no NUL byte. -/
theorem as_string_min_length_no_nul :
    ∀ (mem : Nat → Option Int) (dec : DecOracle) (value : Nat) (ip : Bool)
      (snip mvs : Nat) (s : RStr),
      (AnalyzedValue.new mem dec value ip snip mvs).as_string = some s →
      mvs < s.length ∧ ∀ b ∈ s, b ≠ 0 := by
  intro mem dec value ip snip mvs s h
  simp only [AnalyzedValue.new] at h
  split at h
  · simp at h
  · exact stringPass_some _ mvs s h

set_option maxRecDepth 4000 in
/-- Witness for C9: memory filled with the ASCII word `"mandrake"`
yields a string of 128 non-NUL bytes, longer than the default
`minimum_viable_string = 6`. -/
theorem as_string_min_length_no_nul_witness :
    6 < ((AnalyzedValue.new (fun _ => some 0x656B6172646E616D) (fun _ _ => none)
      0x5000 false 64 6).as_string.getD []).length ∧
    ∀ b ∈ (AnalyzedValue.new (fun _ => some 0x656B6172646E616D) (fun _ _ => none)
      0x5000 false 64 6).as_string.getD [], b ≠ 0 :=
  as_string_min_length_no_nul (fun _ => some 0x656B6172646E616D) (fun _ _ => none)
    0x5000 false 64 6 _ (by decide)

/-! ## C5 -/

/-- A pointer-classified syscall parameter (`is_pointer` only), e.g.
`write`'s `const char *buf` parsed without `char` in the type text. -/
def pointerEntry : SyscallEntry :=
  { field_type := rstr "void", is_string := false, is_pointer := true
    field_name := rstr "buf", is_array := false }

/-- An engine-produced argument value whose stored memory holds a single
byte: `snippit_length = 1` truncates the probed buffer to one byte. -/
def shortPointerAV : AnalyzedValue :=
  AnalyzedValue.new (fun _ => some 170) (fun _ _ => none) 0x1000 false 1 6

/-- Counterexample for C5: for a pointer-classified entry with a nonzero
register value and present memory of fewer than 8 bytes
(`snippit_length = 1`), `syscall_param` does not evaluate to the
backtick-quoted hex rendering — the slice
`&mem[..MAX_SYSCALL_MEMORY_SNIPPIT]` is out of bounds, which the model
renders as `none` (the Rust code panics). -/
theorem syscall_param_short_buffer_counterexample :
    shortPointerAV.memory = some [170] ∧
    shortPointerAV.value ≠ 0 ∧
    syscall_param (fun _ => some 170) (fun _ _ => none) 16 pointerEntry shortPointerAV = none := by
  refine ⟨by decide, by decide, by decide⟩

/-- C5 (amended): for a pointer-classified entry (neither array nor
string) with nonzero register value and present memory of at least
`MAX_SYSCALL_MEMORY_SNIPPIT = 8` bytes — e.g. any `snippit_length ≥ 8`
— `syscall_param` totally evaluates to the backtick-quoted lowercase
hex of the first 8 stored bytes followed by `...`; with fewer than 8
stored bytes the slice `&mem[..8]` is out of range and the code panics
instead. -/
theorem syscall_param_pointer_hex_head :
    ∀ (mem : Nat → Option Int) (dec : DecOracle) (fuel : Nat)
      (s : SyscallEntry) (r : AnalyzedValue) (mb : RStr),
      s.is_array = false → s.is_string = false → s.is_pointer = true →
      r.value ≠ 0 → r.memory = some mb → MAX_SYSCALL_MEMORY_SNIPPIT ≤ mb.length →
      syscall_param mem dec fuel s r =
        some (rstr "`" ++ hexEncode (mb.take MAX_SYSCALL_MEMORY_SNIPPIT) ++ rstr "...`") := by
  intro mem dec fuel s r mb ha hs hp hv hm hlen
  have hlt : ¬ mb.length < MAX_SYSCALL_MEMORY_SNIPPIT := by omega
  simp [syscall_param, ha, hs, hp, hv, hm, hlt]

/-- Witness for C5 (amended): a 9-byte stored buffer renders as the hex
of its first 8 bytes. -/
theorem syscall_param_pointer_hex_head_witness :
    syscall_param (fun _ => none) (fun _ _ => none) 16 pointerEntry
      { value := 0x2000, memory := some [1, 2, 3, 4, 5, 6, 7, 8, 9]
        as_instruction := none, as_string := none, extra := none } =
      some (rstr "`" ++ hexEncode (([1, 2, 3, 4, 5, 6, 7, 8, 9] : RStr).take
        MAX_SYSCALL_MEMORY_SNIPPIT) ++ rstr "...`") :=
  syscall_param_pointer_hex_head (fun _ => none) (fun _ _ => none) 16 pointerEntry
    { value := 0x2000, memory := some [1, 2, 3, 4, 5, 6, 7, 8, 9]
      as_instruction := none, as_string := none, extra := none }
    [1, 2, 3, 4, 5, 6, 7, 8, 9] rfl rfl rfl (by decide) rfl (by decide)

/-! ## C2 -/

/-- C2: the engine cannot attach the claimed seven-register syscall
decode. `syscall_info` as defined in `analyzed_value.rs` indeed takes
`pid` and the seven analyzed registers `rax, rdi, rsi, rdx, r10, r8,
r9`, but the snapshot built by `get_registers_from_pid` never contains
`r10`, `r8` or `r9` (only the nine slots rip/rax/rbx/rcx/rdx/rsi/rdi/
rbp/rsp), and the call site in `mandrake.rs` passes only
`&rax, &rdi, &rsi, &rdx` — the two files do not even type-check
together. -/
theorem registers_lack_syscall_argument_slots :
    ∀ (mem : Nat → Option Int) (dec : DecOracle) (snip mvs : Nat) (rf : RegsFile),
      List.lookup "r10" (getRegistersBase mem dec snip mvs rf) = none ∧
      List.lookup "r8" (getRegistersBase mem dec snip mvs rf) = none ∧
      List.lookup "r9" (getRegistersBase mem dec snip mvs rf) = none := by
  intro mem dec snip mvs rf
  refine ⟨rfl, rfl, rfl⟩

/-! ## C7 -/

lemma new_memory_none (mem : Nat → Option Int) (dec : DecOracle) (value : Nat)
    (ip : Bool) (snip mvs : Nat)
    (h : (AnalyzedValue.new mem dec value ip snip mvs).memory = none) :
    (AnalyzedValue.new mem dec value ip snip mvs).as_instruction = none ∧
    (AnalyzedValue.new mem dec value ip snip mvs).as_string = none ∧
    (AnalyzedValue.new mem dec value ip snip mvs).extra = none := by
  cases hp : get_memory mem value (max INITIAL_SNIPPIT_LENGTH snip) with
  | none => simp [AnalyzedValue.new, hp]
  | some data0 => simp [AnalyzedValue.new, hp] at h

lemma new_as_instruction_some (mem : Nat → Option Int) (dec : DecOracle) (value : Nat)
    (ip : Bool) (snip mvs : Nat) (t : RStr)
    (h : (AnalyzedValue.new mem dec value ip snip mvs).as_instruction = some t) :
    (AnalyzedValue.new mem dec value ip snip mvs).memory ≠ none := by
  cases hp : get_memory mem value (max INITIAL_SNIPPIT_LENGTH snip) with
  | none => simp [AnalyzedValue.new, hp] at h
  | some data0 => simp [AnalyzedValue.new, hp]

/-- C7: every value of an engine-built register snapshot — by the
analyzer's construction and still after the engine overwrites `extra`
on a `syscall`-decoding `rip` slot — satisfies: an absent `memory`
forces absent `as_instruction`, `as_string` and `extra`. -/
theorem snapshot_memory_none_all_none :
    ∀ (mem : Nat → Option Int) (dec : DecOracle) (snip mvs : Nat) (rf : RegsFile)
      (info : List RStr) (name : String) (v : AnalyzedValue),
      (name, v) ∈ get_registers_from_pid mem dec snip mvs rf info →
      v.memory = none →
      v.as_instruction = none ∧ v.as_string = none ∧ v.extra = none := by
  intro mem dec snip mvs rf info name v hmem hnone
  unfold get_registers_from_pid attachExtra at hmem
  rw [show List.lookup "rip" (getRegistersBase mem dec snip mvs rf)
      = some (AnalyzedValue.new mem dec rf.rip true snip mvs) from rfl] at hmem
  dsimp only at hmem
  by_cases hcond : ((AnalyzedValue.new mem dec rf.rip true snip mvs).as_instruction
      == some (rstr "syscall")) = true
  · rw [if_pos hcond] at hmem
    simp only [getRegistersBase, List.map_cons, List.map_nil, List.mem_cons,
      List.not_mem_nil, or_false, Prod.mk.injEq, reduceIte, String.reduceEq] at hmem
    rcases hmem with ⟨h1, h2⟩ | ⟨h1, h2⟩ | ⟨h1, h2⟩ | ⟨h1, h2⟩ | ⟨h1, h2⟩
      | ⟨h1, h2⟩ | ⟨h1, h2⟩ | ⟨h1, h2⟩ | ⟨h1, h2⟩ <;> subst h2
    · exfalso
      exact new_as_instruction_some mem dec rf.rip true snip mvs (rstr "syscall")
        (eq_of_beq hcond) (by simpa using hnone)
    all_goals exact new_memory_none mem dec _ false snip mvs hnone
  · rw [if_neg hcond] at hmem
    simp only [getRegistersBase, List.mem_cons, List.not_mem_nil, or_false,
      Prod.mk.injEq] at hmem
    rcases hmem with ⟨h1, h2⟩ | ⟨h1, h2⟩ | ⟨h1, h2⟩ | ⟨h1, h2⟩ | ⟨h1, h2⟩
      | ⟨h1, h2⟩ | ⟨h1, h2⟩ | ⟨h1, h2⟩ | ⟨h1, h2⟩ <;> subst h2
    · exact new_memory_none mem dec _ true snip mvs hnone
    all_goals exact new_memory_none mem dec _ false snip mvs hnone

/-- Witness for C7: with fully unreadable memory, the `rip` slot of the
snapshot is degenerate (`memory = none`) and indeed carries no
instruction, string or extra. -/
theorem snapshot_memory_none_all_none_witness :
    ((AnalyzedValue.new (fun _ => none) (fun _ _ => none) 7 true 64 6).as_instruction = none ∧
      (AnalyzedValue.new (fun _ => none) (fun _ _ => none) 7 true 64 6).as_string = none ∧
      (AnalyzedValue.new (fun _ => none) (fun _ _ => none) 7 true 64 6).extra = none) :=
  snapshot_memory_none_all_none (fun _ => none) (fun _ _ => none) 64 6
    { rip := 7, rax := 7, rbx := 7, rcx := 7, rdx := 7, rsi := 7, rdi := 7, rbp := 7, rsp := 7 }
    [] "rip" (AnalyzedValue.new (fun _ => none) (fun _ _ => none) 7 true 64 6)
    (by decide) (by decide)

/-! ## C8 -/

/-- The `starting_address`/`history` relationship maintained by the
trace loop. -/
def OutInv (s : MandrakeOutput) : Prop :=
  (s.starting_address = none → s.history = []) ∧
  (∀ a, s.starting_address = some a →
    ∃ r rest rip, s.history = r :: rest ∧ List.lookup "rip" r = some rip ∧ rip.value = a)

/-- The state a step leaves behind, whether it continues or breaks. -/
def stepState : StepOut → Option MandrakeOutput
  | .halt out => some out
  | .next out => some out
  | .failure _ => none

lemma goStep_inv (m : Mandrake) (vis : VisibilityConfiguration)
    (s : MandrakeOutput) (ev : WaitEvent) (hInv : OutInv s) :
    ∀ r, stepState (goStep m vis s ev) = some r → OutInv r := by
  intro r hr
  cases ev with
  | exited code =>
    simp [goStep, stepState] at hr
    subst hr
    exact ⟨fun h => hInv.1 h, fun a ha => hInv.2 a ha⟩
  | stopped sig regs =>
    cases hlook : List.lookup "rip" regs with
    | none =>
      simp [goStep, hlook, stepState] at hr
    | some rip =>
      cases sig with
      | SIGTRAP =>
        by_cases hint3 : (rip.as_instruction == some (rstr "int3")) = true
        · simp [goStep, hlook, hint3, stepState] at hr
          subst hr
          exact hInv
        · simp only [goStep, hlook, hint3, Bool.false_eq_true, if_false, reduceIte] at hr
          have hbody : ∀ out : MandrakeOutput,
              stepState
                (if vis.is_visible rip.value = true then
                  (if s.starting_address.isNone = true then
                    StepOut.next { s with
                      starting_address := some rip.value
                      instructions_executed := s.instructions_executed + 1
                      history := s.history ++ [regs] }
                  else
                    StepOut.next { s with
                      instructions_executed := s.instructions_executed + 1
                      history := s.history ++ [regs] })
                else
                  StepOut.next { s with
                    instructions_executed := s.instructions_executed + 1 }) = some out →
              OutInv out := by
            intro out hout
            by_cases hvis : vis.is_visible rip.value = true
            · rw [if_pos hvis] at hout
              cases hno : s.starting_address with
              | none =>
                have hisn : s.starting_address.isNone = true := by simp [hno]
                rw [if_pos hisn] at hout
                simp only [stepState, Option.some.injEq] at hout
                subst hout
                have hhist : s.history = [] := hInv.1 hno
                constructor
                · intro h
                  simp at h
                · intro a ha
                  simp only [Option.some.injEq] at ha
                  exact ⟨regs, [], rip, by simp [hhist], hlook, ha⟩
              | some a0 =>
                have hisn : s.starting_address.isNone = false := by simp [hno]
                rw [hisn] at hout
                simp only [Bool.false_eq_true, if_false, stepState, Option.some.injEq] at hout
                subst hout
                obtain ⟨rh, rt, ripv, hhist, hl, hv⟩ := hInv.2 a0 hno
                constructor
                · intro h
                  simp only at h
                  rw [hno] at h
                  cases h
                · intro a ha
                  simp only at ha
                  rw [hno] at ha
                  simp only [Option.some.injEq] at ha
                  subst ha
                  exact ⟨rh, rt ++ [regs], ripv, by simp only; rw [hhist]; simp, hl, hv⟩
            · rw [if_neg hvis] at hout
              simp only [stepState, Option.some.injEq] at hout
              subst hout
              exact ⟨fun h => hInv.1 h, fun a ha => hInv.2 a ha⟩
          cases hmax : m.max_logged_instructions with
          | some maxi =>
            rw [hmax] at hr
            simp only [ge_iff_le] at hr
            by_cases hcap : maxi ≤ s.instructions_executed + 1
            · rw [if_pos hcap] at hr
              simp only [stepState, Option.some.injEq] at hr
              subst hr
              exact ⟨fun h => hInv.1 h, fun a ha => hInv.2 a ha⟩
            · rw [if_neg hcap] at hr
              exact hbody r hr
          | none =>
            rw [hmax] at hr
            exact hbody r hr
      | SIGALRM =>
        simp [goStep, hlook, stepState] at hr
        subst hr
        exact ⟨fun h => hInv.1 h, fun a ha => hInv.2 a ha⟩
      | SIGABRT =>
        simp [goStep, hlook, stepState] at hr
        subst hr
        exact ⟨fun h => hInv.1 h, fun a ha => hInv.2 a ha⟩
      | SIGBUS =>
        simp [goStep, hlook, stepState] at hr
        subst hr
        exact ⟨fun h => hInv.1 h, fun a ha => hInv.2 a ha⟩
      | SIGFPE =>
        simp [goStep, hlook, stepState] at hr
        subst hr
        exact ⟨fun h => hInv.1 h, fun a ha => hInv.2 a ha⟩
      | SIGILL =>
        simp [goStep, hlook, stepState] at hr
        subst hr
        exact ⟨fun h => hInv.1 h, fun a ha => hInv.2 a ha⟩
      | SIGKILL =>
        simp [goStep, hlook, stepState] at hr
        subst hr
        exact ⟨fun h => hInv.1 h, fun a ha => hInv.2 a ha⟩
      | SIGSEGV =>
        simp [goStep, hlook, stepState] at hr
        subst hr
        exact ⟨fun h => hInv.1 h, fun a ha => hInv.2 a ha⟩
      | SIGTERM =>
        simp [goStep, hlook, stepState] at hr
        subst hr
        exact ⟨fun h => hInv.1 h, fun a ha => hInv.2 a ha⟩
      | otherSig nm =>
        simp [goStep, hlook, stepState] at hr
        subst hr
        exact ⟨fun h => hInv.1 h, fun a ha => hInv.2 a ha⟩

lemma goStep_addr (m : Mandrake) (vis : VisibilityConfiguration)
    (s : MandrakeOutput) (ev : WaitEvent) (a : Nat)
    (ha : s.starting_address = some a) :
    ∀ r, stepState (goStep m vis s ev) = some r → r.starting_address = some a := by
  intro r hr
  cases ev with
  | exited code =>
    simp [goStep, stepState] at hr
    subst hr
    exact ha
  | stopped sig regs =>
    cases hlook : List.lookup "rip" regs with
    | none => simp [goStep, hlook, stepState] at hr
    | some rip =>
      cases sig with
      | SIGTRAP =>
        by_cases hint3 : (rip.as_instruction == some (rstr "int3")) = true
        · simp [goStep, hlook, hint3, stepState] at hr
          subst hr
          exact ha
        · simp only [goStep, hlook, hint3, Bool.false_eq_true, if_false, reduceIte] at hr
          have hisn : s.starting_address.isNone = false := by simp [ha]
          rw [hisn] at hr
          have hbody : ∀ out : MandrakeOutput,
              stepState
                (if vis.is_visible rip.value = true then
                  (if false = true then
                    StepOut.next { s with
                      starting_address := some rip.value
                      instructions_executed := s.instructions_executed + 1
                      history := s.history ++ [regs] }
                  else
                    StepOut.next { s with
                      instructions_executed := s.instructions_executed + 1
                      history := s.history ++ [regs] })
                else
                  StepOut.next { s with
                    instructions_executed := s.instructions_executed + 1 }) = some out →
              out.starting_address = some a := by
            intro out hout
            by_cases hvis : vis.is_visible rip.value = true
            · rw [if_pos hvis] at hout
              simp only [Bool.false_eq_true, if_false, stepState, Option.some.injEq] at hout
              subst hout
              exact ha
            · rw [if_neg hvis] at hout
              simp only [stepState, Option.some.injEq] at hout
              subst hout
              exact ha
          cases hmax : m.max_logged_instructions with
          | some maxi =>
            rw [hmax] at hr
            simp only [ge_iff_le] at hr
            by_cases hcap : maxi ≤ s.instructions_executed + 1
            · rw [if_pos hcap] at hr
              simp only [stepState, Option.some.injEq] at hr
              subst hr
              exact ha
            · rw [if_neg hcap] at hr
              exact hbody r hr
          | none =>
            rw [hmax] at hr
            exact hbody r hr
      | SIGALRM => simp [goStep, hlook, stepState] at hr; subst hr; exact ha
      | SIGABRT => simp [goStep, hlook, stepState] at hr; subst hr; exact ha
      | SIGBUS => simp [goStep, hlook, stepState] at hr; subst hr; exact ha
      | SIGFPE => simp [goStep, hlook, stepState] at hr; subst hr; exact ha
      | SIGILL => simp [goStep, hlook, stepState] at hr; subst hr; exact ha
      | SIGKILL => simp [goStep, hlook, stepState] at hr; subst hr; exact ha
      | SIGSEGV => simp [goStep, hlook, stepState] at hr; subst hr; exact ha
      | SIGTERM => simp [goStep, hlook, stepState] at hr; subst hr; exact ha
      | otherSig nm => simp [goStep, hlook, stepState] at hr; subst hr; exact ha

lemma goLoop_inv (m : Mandrake) (vis : VisibilityConfiguration) :
    ∀ (events : List WaitEvent) (s : MandrakeOutput), OutInv s →
      ∀ out b, goLoop m vis s events = .ok (out, b) → OutInv out := by
  intro events
  induction events with
  | nil =>
    intro s h out b hok
    simp only [goLoop, Except.ok.injEq, Prod.mk.injEq] at hok
    rw [← hok.1]
    exact h
  | cons e rest ih =>
    intro s h out b hok
    simp only [goLoop] at hok
    cases hstep : goStep m vis s e with
    | halt o =>
      rw [hstep] at hok
      simp only [Except.ok.injEq, Prod.mk.injEq] at hok
      rw [← hok.1]
      exact goStep_inv m vis s e h o (by rw [hstep]; rfl)
    | failure msg =>
      rw [hstep] at hok
      cases hok
    | next r =>
      rw [hstep] at hok
      exact ih r (goStep_inv m vis s e h r (by rw [hstep]; rfl)) out b hok

lemma goLoop_addr (m : Mandrake) (vis : VisibilityConfiguration) :
    ∀ (events : List WaitEvent) (s : MandrakeOutput) (a : Nat),
      s.starting_address = some a →
      ∀ out b, goLoop m vis s events = .ok (out, b) → out.starting_address = some a := by
  intro events
  induction events with
  | nil =>
    intro s a ha out b hok
    simp only [goLoop, Except.ok.injEq, Prod.mk.injEq] at hok
    rw [← hok.1]
    exact ha
  | cons e rest ih =>
    intro s a ha out b hok
    simp only [goLoop] at hok
    cases hstep : goStep m vis s e with
    | halt o =>
      rw [hstep] at hok
      simp only [Except.ok.injEq, Prod.mk.injEq] at hok
      rw [← hok.1]
      exact goStep_addr m vis s e a ha o (by rw [hstep]; rfl)
    | failure msg =>
      rw [hstep] at hok
      cases hok
    | next r =>
      rw [hstep] at hok
      exact ih r a (goStep_addr m vis s e a ha r (by rw [hstep]; rfl)) out b hok

/-- C8: in every output the loop produces from a fresh
`MandrakeOutput`, `starting_address` is `Some` iff `history` is
non-empty; when `Some a`, the first history snapshot's `rip` slot has
value `a` (the first snapshot that passed the visibility filter); and
once `starting_address` is set it is never reassigned by any further
processing. -/
theorem starting_address_iff_first_history :
    ∀ (m : Mandrake) (vis : VisibilityConfiguration) (pid : Nat)
      (events : List WaitEvent) (out : MandrakeOutput) (b : Bool),
      goLoop m vis (MandrakeOutput.new pid) events = .ok (out, b) →
      ((out.starting_address.isSome ↔ out.history ≠ []) ∧
        (∀ a, out.starting_address = some a →
          ∃ r rest rip, out.history = r :: rest ∧
            List.lookup "rip" r = some rip ∧ rip.value = a) ∧
        (∀ (s : MandrakeOutput) (events2 : List WaitEvent) (out2 : MandrakeOutput)
            (b2 : Bool) (a : Nat),
          s.starting_address = some a → goLoop m vis s events2 = .ok (out2, b2) →
          out2.starting_address = some a)) := by
  intro m vis pid events out b hok
  have hInv0 : OutInv (MandrakeOutput.new pid) := ⟨fun _ => rfl, fun a ha => by cases ha⟩
  have hInv := goLoop_inv m vis events (MandrakeOutput.new pid) hInv0 out b hok
  refine ⟨?_, hInv.2, fun s ev2 out2 b2 a ha h2 => goLoop_addr m vis ev2 s a ha out2 b2 h2⟩
  constructor
  · intro hsome hemp
    obtain ⟨a, ha⟩ := Option.isSome_iff_exists.mp hsome
    obtain ⟨r, rest, rip, hh, _, _⟩ := hInv.2 a ha
    rw [hemp] at hh
    cases hh
  · intro hne
    cases hs : out.starting_address with
    | none => exact absurd (hInv.1 hs) hne
    | some a => rfl

/-- The engine configuration of the C3 scenario:
`max_logged_instructions = Some(50)` (snippet and string limits at
their defaults). -/
def m50 : Mandrake :=
  { snippit_length := 64, minimum_viable_string := 6, max_logged_instructions := some 50
    capture_stdout := true, capture_stderr := true }

/-- A `wait()` stop of the C3 scenario: a `SIGTRAP` whose snapshot has
a `rip` slot decoding to something other than `int3` at a visible
address. -/
def goodTrap (vis : VisibilityConfiguration) : WaitEvent → Bool
  | .stopped .SIGTRAP regs =>
    match List.lookup "rip" regs with
    | some rip => rip.as_instruction != some (rstr "int3") && vis.is_visible rip.value
    | none => false
  | _ => false

lemma goLoop_cap_aux (vis : VisibilityConfiguration) :
    ∀ (events : List WaitEvent) (s : MandrakeOutput),
      (∀ e ∈ events, goodTrap vis e = true) →
      s.instructions_executed < 50 →
      50 ≤ s.instructions_executed + events.length →
      ∃ out, goLoop m50 vis s events = .ok (out, true) ∧
        out.instructions_executed = 50 ∧
        out.history.length = s.history.length + (49 - s.instructions_executed) ∧
        out.exit_reason = some (capMessage 50) := by
  intro events
  induction events with
  | nil =>
    intro s hgood hlt hge
    simp at hge
    omega
  | cons e rest ih =>
    intro s hgood hlt hge
    have hge' : goodTrap vis e = true := hgood e (by simp)
    cases e with
    | exited code => simp [goodTrap] at hge'
    | stopped sig regs =>
      cases sig <;> simp [goodTrap] at hge'
      case SIGTRAP =>
        cases hlook : List.lookup "rip" regs with
        | none => rw [hlook] at hge'; simp at hge'
        | some rip =>
          rw [hlook] at hge'
          simp only [Bool.and_eq_true, bne_iff_ne, ne_eq] at hge'
          obtain ⟨hint3, hvis⟩ := hge'
          have hint3' : (rip.as_instruction == some (rstr "int3")) = false := by
            simp [hint3]
          simp only [goLoop, goStep, hlook, hint3', Bool.false_eq_true, if_false,
            reduceIte, m50, ge_iff_le]
          by_cases hcap : 50 ≤ s.instructions_executed + 1
          · rw [if_pos hcap]
            refine ⟨_, rfl, by dsimp; omega, by dsimp; omega, rfl⟩
          · rw [if_neg hcap]
            rw [if_pos hvis]
            by_cases hno : s.starting_address.isNone = true
            · rw [if_pos hno]
              obtain ⟨out, hloop, hex, hlen, hreason⟩ :=
                ih { s with
                      starting_address := some rip.value
                      instructions_executed := s.instructions_executed + 1
                      history := s.history ++ [regs] }
                  (fun e he => hgood e (by simp [he])) (by dsimp; omega)
                  (by dsimp; simp at hge; omega)
              refine ⟨out, hloop, hex, ?_, hreason⟩
              rw [hlen]
              dsimp
              rw [List.length_append]
              simp
              omega
            · rw [if_neg hno]
              obtain ⟨out, hloop, hex, hlen, hreason⟩ :=
                ih { s with
                      instructions_executed := s.instructions_executed + 1
                      history := s.history ++ [regs] }
                  (fun e he => hgood e (by simp [he])) (by dsimp; omega)
                  (by dsimp; simp at hge; omega)
              refine ⟨out, hloop, hex, ?_, hreason⟩
              rw [hlen]
              dsimp
              rw [List.length_append]
              simp
              omega

/-- The `rip` slot of the infinite-jump harness shellcode `EB FE` at
the harness load address. -/
def trapRip : AnalyzedValue :=
  { value := 0x13370000
    memory := some [0xEB, 0xFE]
    as_instruction := some (rstr "jmp short 0x13370000")
    as_string := none
    extra := none }

def trapRegs : List (String × AnalyzedValue) := [("rip", trapRip)]

def trapEvent : WaitEvent := .stopped .SIGTRAP trapRegs

/-- Counterexample for C3: fifty visible non-`int3` single-steps under
`max_logged_instructions = Some(50)` leave `instructions_executed = 50`
and the cap break, but `history.len() = 49`, not the 50 the claim
states: the loop breaks at the cap before pushing the capping
instruction's snapshot. -/
theorem instruction_cap_history_counterexample :
    (match goLoop m50 VisibilityConfiguration.harness_visibility (MandrakeOutput.new 1234)
        (List.replicate 50 trapEvent) with
      | .ok (out, b) => some (out.instructions_executed, out.history.length, b)
      | .error _ => none) = some (50, 49, true) ∧ (49 : Nat) ≠ 50 := by
  refine ⟨by decide, by decide⟩

/-- C3 (amended): with `max_logged_instructions = Some(50)` and a
tracee that keeps single-stepping through visible, non-`int3`
instructions (at least 50 stops, e.g. the `EB FE` infinite jump), the
loop breaks with `instructions_executed = 50`, `exit_reason` beginning
`"Execution stopped at instruction cap"`, and `history.len() = 49`:
the snapshot of the instruction that hits the cap is not pushed. -/
theorem instruction_cap_history_one_less :
    ∀ (events : List WaitEvent) (pid : Nat),
      (∀ e ∈ events, goodTrap VisibilityConfiguration.harness_visibility e = true) →
      50 ≤ events.length →
      ∃ out,
        goLoop m50 VisibilityConfiguration.harness_visibility (MandrakeOutput.new pid) events
          = .ok (out, true) ∧
        out.instructions_executed = 50 ∧
        out.history.length = 49 ∧
        out.exit_reason = some (capMessage 50) ∧
        (rstr "Execution stopped at instruction cap").isPrefixOf (out.exit_reason.getD [])
          = true := by
  intro events pid hgood hlen
  obtain ⟨out, hloop, hex, hhist, hreason⟩ :=
    goLoop_cap_aux VisibilityConfiguration.harness_visibility events (MandrakeOutput.new pid)
      hgood (by simp [MandrakeOutput.new]) (by simp [MandrakeOutput.new]; omega)
  refine ⟨out, hloop, hex, by simpa [MandrakeOutput.new] using hhist, hreason, ?_⟩
  rw [hreason]
  decide

/-- Witness for C3 (amended) on fifty concrete `EB FE` stops. -/
theorem instruction_cap_history_one_less_witness :
    ∃ out,
      goLoop m50 VisibilityConfiguration.harness_visibility (MandrakeOutput.new 1234)
        (List.replicate 50 trapEvent) = .ok (out, true) ∧
      out.instructions_executed = 50 ∧
      out.history.length = 49 ∧
      out.exit_reason = some (capMessage 50) ∧
      (rstr "Execution stopped at instruction cap").isPrefixOf (out.exit_reason.getD [])
        = true :=
  instruction_cap_history_one_less (List.replicate 50 trapEvent) 1234 (by decide) (by decide)

/-- An uncapped engine configuration. -/
def mNoCap : Mandrake :=
  { snippit_length := 64, minimum_viable_string := 6, max_logged_instructions := none
    capture_stdout := true, capture_stderr := true }

/-- The output of a one-stop trace, used to witness C8. -/
def c8Out : MandrakeOutput :=
  match goLoop mNoCap VisibilityConfiguration.harness_visibility (MandrakeOutput.new 1)
      [trapEvent] with
  | .ok (o, _) => o
  | .error _ => MandrakeOutput.new 0

/-- Witness for C8 on a concrete one-stop trace. -/
theorem starting_address_iff_first_history_witness :
    (c8Out.starting_address.isSome ↔ c8Out.history ≠ []) ∧
    (∀ a, c8Out.starting_address = some a →
      ∃ r rest rip, c8Out.history = r :: rest ∧
        List.lookup "rip" r = some rip ∧ rip.value = a) ∧
    (∀ (s : MandrakeOutput) (events2 : List WaitEvent) (out2 : MandrakeOutput)
        (b2 : Bool) (a : Nat),
      s.starting_address = some a →
      goLoop mNoCap VisibilityConfiguration.harness_visibility s events2 = .ok (out2, b2) →
      out2.starting_address = some a) :=
  starting_address_iff_first_history mNoCap VisibilityConfiguration.harness_visibility 1
    [trapEvent] c8Out false (by rfl)
